import Mathlib

/-!
# One Million Checkboxes (Go): cell store, wire codec, connection hub

A shallow embedding of `pkg/state/state.go`, `pkg/network/websocket.go` and the
message handling of `cmd/checkboxes/checkboxes.go`, with theorems about the
snapshot encoding, the edit handler, the broadcast hub and persistence.

Conventions of the embedding:

* `N` stands for the constant `state.NumCheckboxes` (the shipped value is
  `NumCheckboxes = 1000000`); `init` of package `state` refuses to start when it
  exceeds `math.MaxUint32 / 2`.
* the global `checkboxes [N]atomic.Bool` is a function `Fin N → Bool`;
* a Go `byte` is a `Fin 256`, arithmetic on it goes through `Nat` with an
  explicit `% 256`; a `uint32` is a `Nat` reduced `% 2 ^ 32` at conversions;
* a run-time panic (slice index out of range) is the result `none`;
* `for i := 0; i < n; i++` is `forLoop body n`, the state after `n` rounds.
-/

namespace Checkboxes

/-! ## Basic types -/

/-- A Go `byte`. -/
abbrev Byte := Fin 256

/-- A `*websocket.Conn`, identified by a number. -/
abbrev Conn := Nat

/-- The array `checkboxes [NumCheckboxes]atomic.Bool` of package `state`. -/
abbrev Cells (N : Nat) := Fin N → Bool

/-- The constant `state.NumCheckboxes`. -/
def NumCheckboxes : Nat := 1000000

/-- The value `math.MaxUint32 / 2` that `init` of package `state` compares with. -/
def maxCheckboxes : Nat := 2147483647

/-- The loop `for i := 0; i < n; i++ { s = body i s }` where a round may panic:
`forLoop body n s` is the state after rounds `0, 1, ..., n-1` started in `s`. -/
def forLoop {σ : Type} (body : Nat → σ → Option σ) : Nat → σ → Option σ
  | 0, s => some s
  | n + 1, s => (forLoop body n s).bind (body n)

/-! ## Package `state` -/

/-- The function `state.UpdateCheckbox(index, value)`: a store into cell
`index`, or only a log line when `index >= NumCheckboxes`. -/
def UpdateCheckbox {N : Nat} (index : Nat) (value : Bool) (checkboxes : Cells N) : Cells N :=
  if h : index < N then Function.update checkboxes ⟨index, h⟩ value else checkboxes

/-- The function `state.GetCheckboxState(index)`: the cell, or `false` (after a
log line) when `index >= NumCheckboxes`. -/
def GetCheckboxState {N : Nat} (checkboxes : Cells N) (index : Nat) : Bool :=
  if h : index < N then checkboxes ⟨index, h⟩ else false

/-- The slice that `state.SaveStateToFile` hands to the gob encoder:
`state := make([]bool, N)` followed by `state[i] = checkboxes[i].Load()` for
`i < N`. An index outside the slice or the array would panic (`none`). -/
def SaveStateToFile {N : Nat} (checkboxes : Cells N) : Option (List Bool) :=
  forLoop (fun i state =>
      if i < state.length then
        if hc : i < N then some (state.set i (checkboxes ⟨i, hc⟩)) else none
      else none)
    N (List.replicate N false)

/-- The restore loop of `state.LoadStateFromFile` on the decoded slice `state`:
`for i := 0; i < N && i < len(state); i++ { checkboxes[i].Store(state[i]) }`.
The loop runs `min N (len state)` rounds. -/
def loadLoop {N : Nat} (state : List Bool) (checkboxes : Cells N) : Option (Cells N) :=
  forLoop (fun i cb =>
      match state[i]? with
      | none => none
      | some v => if hc : i < N then some (Function.update cb ⟨i, hc⟩ v) else none)
    (min N state.length) checkboxes

/-- The function `state.LoadStateFromFile`, where `file` is what opening and gob-decoding the
state file gives: `none` when the file is missing, unreadable or undecodable
(the function logs and returns), `some state` for a decoded slice. -/
def LoadStateFromFile {N : Nat} (file : Option (List Bool)) (checkboxes : Cells N) :
    Option (Cells N) :=
  match file with
  | none => some checkboxes
  | some state => loadLoop state checkboxes

/-! ## Bytes and the `encoding/binary` helpers -/

/-- The Go expression `1 << k` at type `byte`: the untyped constant `1` takes
the type of the other operand (`stateData[..] |= 1 << k`,
`initialState[..] & (1 << k)`), so the shift is an 8-bit shift and bits moved
past bit 7 are lost. -/
def byteShl1 (k : Nat) : Byte := ⟨(1 <<< k) % 256, Nat.mod_lt _ (by decide)⟩

/-- Bitwise or of two bytes (`|`). -/
def byteOr (a b : Byte) : Byte := ⟨(a.val ||| b.val) % 256, Nat.mod_lt _ (by decide)⟩

/-- Bitwise and of two bytes (`&`). -/
def byteAnd (a b : Byte) : Byte := ⟨(a.val &&& b.val) % 256, Nat.mod_lt _ (by decide)⟩

/-- The library function `binary.BigEndian.Uint32(b)`: the first four bytes read as a big-endian
number; panics when `b` has fewer than four bytes. -/
def Uint32 : List Byte → Option Nat
  | b0 :: b1 :: b2 :: b3 :: _ =>
      some ((b0.val * 2 ^ 24 + b1.val * 2 ^ 16 + b2.val * 2 ^ 8 + b3.val) % 2 ^ 32)
  | _ => none

/-- The library function `binary.BigEndian.PutUint32`: the four big-endian bytes of `v` (as the
client in `cmd/client/client.go` fills `message[1:]`). -/
def PutUint32 (v : Nat) : List Byte :=
  [⟨v / 2 ^ 24 % 256, Nat.mod_lt _ (by decide)⟩, ⟨v / 2 ^ 16 % 256, Nat.mod_lt _ (by decide)⟩,
   ⟨v / 2 ^ 8 % 256, Nat.mod_lt _ (by decide)⟩, ⟨v % 256, Nat.mod_lt _ (by decide)⟩]

/-- The slice expression `b[lo:hi]`; panics when `hi` exceeds the length. -/
def slice (b : List Byte) (lo hi : Nat) : Option (List Byte) :=
  if lo ≤ hi ∧ hi ≤ b.length then some ((b.drop lo).take (hi - lo)) else none

/-- The edit message `[action][index as big-endian u32]` of the wire protocol,
as `cmd/client/client.go` builds it. -/
def editMessage (action : Byte) (index : Nat) : List Byte := action :: PutUint32 index

/-! ## Snapshot codec of `cmd/checkboxes/checkboxes.go` -/

/-- One round of the loop of `sendFullState`:
`if GetCheckboxState(uint32(i)) { stateData[(i/32)*4] |= 1 << (31 - (i % 32)) }`. -/
def sendFullStateRound {N : Nat} (checkboxes : Cells N) (i : Nat) (stateData : List Byte) :
    Option (List Byte) :=
  if GetCheckboxState checkboxes (i % 2 ^ 32) then
    match stateData[(i / 32) * 4]? with
    | none => none
    | some b => some (stateData.set ((i / 32) * 4) (byteOr b (byteShl1 (31 - i % 32))))
  else some stateData

/-- The function `sendFullState(conn)`, as the payload `stateData` that it
builds and hands to `conn.WriteMessage`: `make([]byte, (N+31)/32*4)` followed
by the loop over `i < N`; `none` when an index into `stateData` is out of
range. -/
def sendFullState {N : Nat} (checkboxes : Cells N) : Option (List Byte) :=
  forLoop (sendFullStateRound checkboxes) N (List.replicate ((N + 31) / 32 * 4) 0)

/-- One round of the loop of `updateLocalState`:
`if initialState[(i/32)*4] & (1 << (31 - (i%32))) != 0 { UpdateCheckbox(uint32(i), true) }
else { UpdateCheckbox(uint32(i), false) }`. -/
def updateLocalStateRound {N : Nat} (initialState : List Byte) (i : Nat) (checkboxes : Cells N) :
    Option (Cells N) :=
  match initialState[(i / 32) * 4]? with
  | none => none
  | some b =>
      if byteAnd b (byteShl1 (31 - i % 32)) ≠ 0 then
        some (UpdateCheckbox (i % 2 ^ 32) true checkboxes)
      else
        some (UpdateCheckbox (i % 2 ^ 32) false checkboxes)

/-- The function `updateLocalState(initialState)`: the loop over `i < N`; `none` when an
index into `initialState` is out of range (the Go program panics). -/
def updateLocalState {N : Nat} (initialState : List Byte) (checkboxes : Cells N) :
    Option (Cells N) :=
  forLoop (updateLocalStateRound initialState) N checkboxes

/-! ## Package `network`: the connection hub -/

/-- The type `network.WebSocketManager`: the key set of the map `Connections`, together
with two traces that record what the manager did on the wire: every
`conn.WriteMessage(BinaryMessage, payload)` it attempted, in order, and every
`conn.Close()` it called. -/
structure WebSocketManager where
  Connections : List Conn
  sent : List (Conn × List Byte)
  closed : List Conn

/-- The method `manager.AddConnection(conn)`: `Connections[conn] = true`. -/
def WebSocketManager.AddConnection (manager : WebSocketManager) (conn : Conn) :
    WebSocketManager :=
  if conn ∈ manager.Connections then manager
  else { manager with Connections := manager.Connections ++ [conn] }

/-- The method `manager.RemoveConnection(conn)`: `delete(Connections, conn)`. -/
def WebSocketManager.RemoveConnection (manager : WebSocketManager) (conn : Conn) :
    WebSocketManager :=
  { manager with Connections := manager.Connections.erase conn }

/-- One round of the loop of `BroadcastMessage` for the key `conn`: write the
message; on a write error close the connection and delete it from the map.
`writeOk conn` tells whether the write to `conn` succeeds. -/
def broadcastRound (writeOk : Conn → Bool) (message : List Byte) (manager : WebSocketManager)
    (conn : Conn) : WebSocketManager :=
  let written := { manager with sent := manager.sent ++ [(conn, message)] }
  if writeOk conn then written
  else { written with
          closed := written.closed ++ [conn]
          Connections := written.Connections.erase conn }

/-- The method `manager.BroadcastMessage(message)`: `for conn := range manager.Connections`
visits every key once, in the order of the list (Go fixes no order; every order
is a list); the only deletion in a round is of the key being visited. -/
def WebSocketManager.BroadcastMessage (writeOk : Conn → Bool) (manager : WebSocketManager)
    (message : List Byte) : WebSocketManager :=
  manager.Connections.foldl (broadcastRound writeOk message) manager

/-! ## The server process of `cmd/checkboxes/checkboxes.go` -/

/-- The mutable globals of the server: the cell array, the hub `manager`, the
upstream link `masterConn` (`none` is the `nil` of Go), and the trace of payloads
handed to `masterConn.WriteMessage`. -/
structure Server (N : Nat) where
  checkboxes : Cells N
  manager : WebSocketManager
  masterConn : Option Conn
  upstream : List (List Byte)

/-- The function `relayToMaster(message)`: nothing but a log line when `masterConn == nil`;
otherwise write the message upstream and, on a write error, close and drop the
link. -/
def relayToMaster {N : Nat} (writeOk : Conn → Bool) (srv : Server N) (message : List Byte) :
    Server N :=
  match srv.masterConn with
  | none => srv
  | some conn =>
      let written := { srv with upstream := srv.upstream ++ [message] }
      if writeOk conn then written else { written with masterConn := none }

/-- The body of the read loop of `handleWebSocket` for one received `message`
(after `totalMessages.Inc()`); `relayer` is `*mode == "relayer"`. The two
`continue` statements return the server unchanged. -/
def handleMessage {N : Nat} (relayer : Bool) (writeOk : Conn → Bool) (srv : Server N)
    (message : List Byte) : Option (Server N) :=
  if message.length < 5 then some srv
  else
    match message[0]?, (slice message 1 5).bind Uint32 with
    | some action, some index =>
        if index ≥ N then some srv
        else
          let updated : Server N :=
            match action.val with
            | 0 => { srv with checkboxes := UpdateCheckbox index false srv.checkboxes }
            | 1 => { srv with checkboxes := UpdateCheckbox index true srv.checkboxes }
            | _ => srv
          let broadcast : Server N :=
            { updated with manager := updated.manager.BroadcastMessage writeOk message }
          if relayer then some (relayToMaster writeOk broadcast message) else some broadcast
    | _, _ => none

/-- The body of the inner read loop of `connectToMaster` for one `message`
received from the master. -/
def masterMessage {N : Nat} (writeOk : Conn → Bool) (srv : Server N) (message : List Byte) :
    Option (Server N) :=
  let updated : Option (Server N) :=
    if message.length ≥ 5 then
      match message[0]?, (slice message 1 5).bind Uint32 with
      | some action, some index =>
          if index < N then
            match action.val with
            | 0 => some { srv with checkboxes := UpdateCheckbox index false srv.checkboxes }
            | 1 => some { srv with checkboxes := UpdateCheckbox index true srv.checkboxes }
            | _ => some srv
          else some srv
      | _, _ => none
    else some srv
  updated.map fun u => { u with manager := u.manager.BroadcastMessage writeOk message }

/-! ## Auxiliary lemmas: loops -/

/-- A round that panics in every state makes the whole loop panic. -/
theorem forLoop_eq_none {σ : Type} (body : Nat → σ → Option σ) (i : Nat)
    (hbody : ∀ t, body i t = none) : ∀ (n : Nat) (s : σ), i < n → forLoop body n s = none := by
  intro n
  induction n with
  | zero => intro s h; omega
  | succ n ih =>
    intro s h
    show (forLoop body n s).bind (body n) = none
    by_cases hlt : i < n
    · rw [ih s hlt]; rfl
    · have hin : i = n := by omega
      subst hin
      cases forLoop body i s with
      | none => rfl
      | some t => exact hbody t

/-- Invariant rule for the loop: an invariant that holds at the start and is
carried by every round (which then does not panic) holds at the end. -/
theorem forLoop_invariant {σ : Type} (body : Nat → σ → Option σ) (P : Nat → σ → Prop)
    (n : Nat) (s : σ) (h0 : P 0 s)
    (hstep : ∀ i t, i < n → P i t → ∃ t', body i t = some t' ∧ P (i + 1) t') :
    ∃ t, forLoop body n s = some t ∧ P n t := by
  induction n with
  | zero => exact ⟨s, rfl, h0⟩
  | succ n ih =>
    obtain ⟨t, ht, hP⟩ := ih (fun i t hi hp => hstep i t (by omega) hp)
    obtain ⟨t', ht', hP'⟩ := hstep n t (by omega) hP
    refine ⟨t', ?_, hP'⟩
    show (forLoop body n s).bind (body n) = some t'
    rw [ht]; exact ht'

/-! ## Auxiliary lemmas: the cell store -/

theorem GetCheckboxState_of_lt {N : Nat} (cb : Cells N) (i : Nat) (h : i < N) :
    GetCheckboxState cb i = cb ⟨i, h⟩ := by
  simp [GetCheckboxState, h]

theorem UpdateCheckbox_of_lt {N : Nat} (cb : Cells N) (i : Nat) (v : Bool) (h : i < N) :
    UpdateCheckbox i v cb = Function.update cb ⟨i, h⟩ v := by
  simp [UpdateCheckbox, h]

theorem UpdateCheckbox_of_ge {N : Nat} (cb : Cells N) (i : Nat) (v : Bool) (h : N ≤ i) :
    UpdateCheckbox i v cb = cb := by
  simp [UpdateCheckbox, Nat.not_lt.mpr h]

/-! ## Auxiliary lemmas: edit messages -/

theorem Uint32_PutUint32 (v : Nat) (h : v < 2 ^ 32) : Uint32 (PutUint32 v) = some v := by
  simp only [Uint32, PutUint32, Option.some.injEq]
  omega

theorem editMessage_length (a : Byte) (i : Nat) : (editMessage a i).length = 5 := rfl

theorem editMessage_index (a : Byte) (i : Nat) (h : i < 2 ^ 32) :
    (slice (editMessage a i) 1 5).bind Uint32 = some i := by
  have : slice (editMessage a i) 1 5 = some (PutUint32 i) := by
    simp [slice, editMessage, PutUint32]
  rw [this]
  exact Uint32_PutUint32 i h

/-! ## Auxiliary lemmas: the hub -/

/-- The loop of `BroadcastMessage` over the keys `rest` still to visit, started
in a manager whose key list is `kept ++ rest`: one write per key of `rest`, the
failing keys closed and deleted. -/
theorem broadcast_foldl (writeOk : Conn → Bool) (message : List Byte) :
    ∀ (rest kept : List Conn) (m : WebSocketManager),
      m.Connections = kept ++ rest → (kept ++ rest).Nodup →
      (rest.foldl (broadcastRound writeOk message) m).Connections
          = kept ++ rest.filter writeOk ∧
      (rest.foldl (broadcastRound writeOk message) m).sent
          = m.sent ++ rest.map (fun c => (c, message)) ∧
      (rest.foldl (broadcastRound writeOk message) m).closed
          = m.closed ++ rest.filter (fun c => !writeOk c) := by
  intro rest
  induction rest with
  | nil => intro kept m hm _; simp [hm]
  | cons c rest ih =>
    intro kept m hm hnd
    have hc : c ∉ kept := by
      intro hmem
      have := (List.nodup_append.mp hnd).2.2
      exact this hmem (List.mem_cons_self c rest) 
    rw [List.foldl_cons]
    by_cases hw : writeOk c = true
    · have hm' : (broadcastRound writeOk message m c).Connections = (kept ++ [c]) ++ rest := by
        simp [broadcastRound, hw, hm]
      have hnd' : ((kept ++ [c]) ++ rest).Nodup := by simpa using hnd
      obtain ⟨h1, h2, h3⟩ := ih (kept ++ [c]) _ hm' hnd'
      refine ⟨?_, ?_, ?_⟩
      · rw [h1]; simp [hw]
      · rw [h2]; simp [broadcastRound, hw]
      · rw [h3]; simp [broadcastRound, hw]
    · have hm' : (broadcastRound writeOk message m c).Connections = kept ++ rest := by
        simp only [broadcastRound, hw, hm]
        simp [List.erase_append_right _ hc]
      have hnd' : (kept ++ rest).Nodup := by
        have := hnd
        rw [List.nodup_append] at this ⊢
        refine ⟨this.1, (List.nodup_cons.mp this.2.1).2, ?_⟩
        intro a ha hb
        exact this.2.2 ha (List.mem_cons_of_mem c hb)
      obtain ⟨h1, h2, h3⟩ := ih kept _ hm' hnd'
      refine ⟨?_, ?_, ?_⟩
      · rw [h1]; simp [hw]
      · rw [h2]; simp [broadcastRound, hw]
      · rw [h3]; simp [broadcastRound, hw]

/-- The writes of a broadcast do not depend on the key list having distinct
entries: one write of `message` per entry, in order. -/
theorem broadcast_sent (writeOk : Conn → Bool) (message : List Byte) :
    ∀ (rest : List Conn) (m : WebSocketManager),
      (rest.foldl (broadcastRound writeOk message) m).sent
        = m.sent ++ rest.map (fun c => (c, message)) := by
  intro rest
  induction rest with
  | nil => intro m; simp
  | cons c rest ih =>
    intro m
    rw [List.foldl_cons, ih]
    by_cases hw : writeOk c = true <;> simp [broadcastRound, hw]

/-! ## The cell store (C8) -/

/-- C8: for every cell state, every index `i < N` and every boolean `v`, after
`UpdateCheckbox(i, v)` the read `GetCheckboxState(i)` gives `v`; a following
`UpdateCheckbox(j, w)` with `j ≠ i` does not change that read; and
`GetCheckboxState(k)` for `k ≥ N` gives `false` (the function is total, it
cannot fail). -/
theorem cell_store_write_read (N : Nat) (cb : Cells N) (i : Nat) (v : Bool) (hi : i < N) :
    GetCheckboxState (UpdateCheckbox i v cb) i = v ∧
    (∀ (j : Nat) (w : Bool), j ≠ i →
      GetCheckboxState (UpdateCheckbox j w (UpdateCheckbox i v cb)) i = v) ∧
    (∀ k : Nat, N ≤ k → GetCheckboxState cb k = false) := by
  refine ⟨?_, ?_, ?_⟩
  · simp [GetCheckboxState, UpdateCheckbox, hi]
  · intro j w hji
    by_cases hj : j < N
    · have hne : (⟨i, hi⟩ : Fin N) ≠ ⟨j, hj⟩ := by
        intro h; exact hji (Fin.mk.inj h).symm
      simp [GetCheckboxState, UpdateCheckbox, hi, hj, Function.update_noteq hne]
    · simp [GetCheckboxState, UpdateCheckbox, hi, hj]
  · intro k hk
    simp [GetCheckboxState, Nat.not_lt.mpr hk]

/-- C8 at a concrete input: eight cells, all false, write `true` to cell 3. -/
theorem cell_store_write_read_witness :
    GetCheckboxState (UpdateCheckbox 3 true (fun _ : Fin 8 => false)) 3 = true ∧
    (∀ (j : Nat) (w : Bool), j ≠ 3 →
      GetCheckboxState (UpdateCheckbox j w (UpdateCheckbox 3 true (fun _ : Fin 8 => false))) 3
        = true) ∧
    (∀ k : Nat, 8 ≤ k → GetCheckboxState (fun _ : Fin 8 => false) k = false) :=
  cell_store_write_read 8 (fun _ => false) 3 true (by decide)

/-! ## The hub (C7) -/

/-- C7: for every registered set `R` (a key list without repetition), every
message `m` and every assignment `writeOk` of send outcomes,
`BroadcastMessage(m)` attempts exactly the sends `(c, m)` for `c` in `R` (the
list of sends has no repetition, holds `(c, m)` for every `c` in `R`, and every
send in it goes to a connection of `R` and carries `m` itself), whatever the
outcomes of the other sends; afterwards the registered connections are exactly those of `R` whose
send succeeded, and the closed ones are exactly those whose send failed. -/
theorem broadcast_fan_out (writeOk : Conn → Bool) (manager : WebSocketManager)
    (message : List Byte) (hR : manager.Connections.Nodup) :
    (manager.BroadcastMessage writeOk message).sent
        = manager.sent ++ manager.Connections.map (fun c => (c, message)) ∧
    (manager.Connections.map (fun c => (c, message))).Nodup ∧
    (∀ c, c ∈ manager.Connections →
        (c, message) ∈ manager.Connections.map (fun c => (c, message))) ∧
    (∀ p, p ∈ manager.Connections.map (fun c => (c, message)) →
        p.1 ∈ manager.Connections ∧ p.2 = message) ∧
    (manager.BroadcastMessage writeOk message).Connections
        = manager.Connections.filter writeOk ∧
    (∀ c, c ∈ (manager.BroadcastMessage writeOk message).Connections ↔
        c ∈ manager.Connections ∧ writeOk c = true) ∧
    (manager.BroadcastMessage writeOk message).closed
        = manager.closed ++ manager.Connections.filter (fun c => !writeOk c) := by
  obtain ⟨h1, h2, h3⟩ :=
    broadcast_foldl writeOk message manager.Connections [] manager (by simp) (by simpa using hR)
  have hinj : Function.Injective (fun c : Conn => (c, message)) := by
    intro a b hab
    exact (Prod.mk.inj hab).1
  refine ⟨h2, hR.map hinj, ?_, ?_, ?_, ?_, h3⟩
  · intro c hc
    exact List.mem_map.mpr ⟨c, hc, rfl⟩
  · intro p hp
    obtain ⟨c, hc, rfl⟩ := List.mem_map.mp hp
    exact ⟨hc, rfl⟩
  · simpa using h1
  · intro c
    have : (manager.BroadcastMessage writeOk message).Connections
        = manager.Connections.filter writeOk := by simpa using h1
    rw [this, List.mem_filter]

/-- C7 at the input of the specification: `R = {A, B, C}` (numbered 0, 1, 2)
with the send to `B` failing: all three are sent the message, `A` and `C` stay
registered, `B` is closed. -/
theorem broadcast_fan_out_witness :
    (([0, 1, 2] : List Conn).Nodup) ∧
    (WebSocketManager.BroadcastMessage (fun c => c != 1) ⟨[0, 1, 2], [], []⟩ [1, 0, 0, 0, 3]).sent
        = [(0, [1, 0, 0, 0, 3]), (1, [1, 0, 0, 0, 3]), (2, [1, 0, 0, 0, 3])] ∧
    (WebSocketManager.BroadcastMessage (fun c => c != 1) ⟨[0, 1, 2], [], []⟩ [1, 0, 0, 0, 3]).Connections
        = [0, 2] ∧
    (WebSocketManager.BroadcastMessage (fun c => c != 1) ⟨[0, 1, 2], [], []⟩ [1, 0, 0, 0, 3]).closed
        = [1] := by
  have h := broadcast_fan_out (fun c => c != 1) ⟨[0, 1, 2], [], []⟩ [1, 0, 0, 0, 3] (by decide)
  exact ⟨by decide, h.1, h.2.2.2.2.1, h.2.2.2.2.2.2⟩

/-! ## The per-connection handler (C3, C4, C5) -/

/-- What `handleWebSocket` does with a message of at least five bytes whose
index is in range, spelled out. -/
theorem handleMessage_in_range {N : Nat} (relayer : Bool) (writeOk : Conn → Bool) (srv : Server N)
    (a b0 b1 b2 b3 : Byte) (rest : List Byte)
    (hidx : b0.val * 2 ^ 24 + b1.val * 2 ^ 16 + b2.val * 2 ^ 8 + b3.val < N) :
    handleMessage relayer writeOk srv (a :: b0 :: b1 :: b2 :: b3 :: rest) =
      some ((if relayer then fun s => relayToMaster writeOk s (a :: b0 :: b1 :: b2 :: b3 :: rest)
             else fun s => s)
        { checkboxes :=
            if a = 0 then UpdateCheckbox
                (b0.val * 2 ^ 24 + b1.val * 2 ^ 16 + b2.val * 2 ^ 8 + b3.val) false srv.checkboxes
            else if a = 1 then UpdateCheckbox
                (b0.val * 2 ^ 24 + b1.val * 2 ^ 16 + b2.val * 2 ^ 8 + b3.val) true srv.checkboxes
            else srv.checkboxes
          manager := srv.manager.BroadcastMessage writeOk (a :: b0 :: b1 :: b2 :: b3 :: rest)
          masterConn := srv.masterConn
          upstream := srv.upstream }) := by
  have hmod : (b0.val * 2 ^ 24 + b1.val * 2 ^ 16 + b2.val * 2 ^ 8 + b3.val) % 2 ^ 32
      = b0.val * 2 ^ 24 + b1.val * 2 ^ 16 + b2.val * 2 ^ 8 + b3.val := by
    have h0 := b0.isLt; have h1 := b1.isLt; have h2 := b2.isLt; have h3 := b3.isLt
    omega
  have hsl : (slice (a :: b0 :: b1 :: b2 :: b3 :: rest) 1 5).bind Uint32
      = some (b0.val * 2 ^ 24 + b1.val * 2 ^ 16 + b2.val * 2 ^ 8 + b3.val) := by
    simp only [slice, List.length_cons]
    rw [if_pos (by omega)]
    simp only [List.drop_succ_cons, List.drop_zero, Option.some_bind, Uint32, List.take, hmod]
  unfold handleMessage
  rw [if_neg (by simp), hsl]
  simp only [List.getElem?_cons_zero, ge_iff_le]
  rw [if_neg (by omega)]
  obtain ⟨av, hav⟩ := a
  match av, hav with
  | 0, _ => cases relayer <;> simp
  | 1, _ => cases relayer <;> simp
  | n + 2, h =>
    have h0 : (⟨n + 2, h⟩ : Byte) ≠ 0 := by
      intro hc; have := congrArg Fin.val hc; simp at this
    have h1 : (⟨n + 2, h⟩ : Byte) ≠ 1 := by
      intro hc; have := congrArg Fin.val hc; simp at this
    cases relayer <;> simp [h0, h1]

/-- The handler on a well-formed five-byte edit whose index is in range. -/
theorem handleMessage_editMessage {N : Nat} (relayer : Bool) (writeOk : Conn → Bool)
    (srv : Server N) (a : Byte) (i : Nat) (hi : i < N) (h32 : i < 2 ^ 32) :
    handleMessage relayer writeOk srv (editMessage a i) =
      some ((if relayer then fun s => relayToMaster writeOk s (editMessage a i) else fun s => s)
        { checkboxes :=
            if a = 0 then UpdateCheckbox i false srv.checkboxes
            else if a = 1 then UpdateCheckbox i true srv.checkboxes
            else srv.checkboxes
          manager := srv.manager.BroadcastMessage writeOk (editMessage a i)
          masterConn := srv.masterConn
          upstream := srv.upstream }) := by
  have hval : (i / 2 ^ 24 % 256) * 2 ^ 24 + (i / 2 ^ 16 % 256) * 2 ^ 16 + (i / 2 ^ 8 % 256) * 2 ^ 8
      + i % 256 = i := by omega
  have h := handleMessage_in_range relayer writeOk srv a
    ⟨i / 2 ^ 24 % 256, Nat.mod_lt _ (by decide)⟩ ⟨i / 2 ^ 16 % 256, Nat.mod_lt _ (by decide)⟩
    ⟨i / 2 ^ 8 % 256, Nat.mod_lt _ (by decide)⟩ ⟨i % 256, Nat.mod_lt _ (by decide)⟩ []
    (by simp only; omega)
  simp only [hval] at h
  exact h

/-- C3: for every server state, every action `a ∈ {0, 1}` and every index
`i < N`, the handler of `handleWebSocket` on the five-byte message
`[a, i as big-endian u32]` does not fail, leaves cell `i` equal to `(a = 1)`
and every other cell unchanged, runs `BroadcastMessage` on the received bytes
themselves, so that every registered connection is sent exactly these bytes,
and in relayer mode hands the same bytes to `relayToMaster` (which writes them
upstream when a master link exists); in master mode nothing goes upstream. -/
theorem well_formed_edit (N : Nat) (relayer : Bool) (writeOk : Conn → Bool) (srv : Server N)
    (a : Byte) (i : Nat) (hN : N ≤ maxCheckboxes) (ha : a = 0 ∨ a = 1) (hi : i < N) :
    ∃ srv', handleMessage relayer writeOk srv (editMessage a i) = some srv' ∧
      srv'.checkboxes ⟨i, hi⟩ = decide (a = 1) ∧
      (∀ j : Fin N, j.val ≠ i → srv'.checkboxes j = srv.checkboxes j) ∧
      srv'.manager = srv.manager.BroadcastMessage writeOk (editMessage a i) ∧
      srv'.manager.sent
        = srv.manager.sent ++ srv.manager.Connections.map (fun c => (c, editMessage a i)) ∧
      (relayer = true →
        srv' = relayToMaster writeOk
          { srv with
            checkboxes := UpdateCheckbox i (decide (a = 1)) srv.checkboxes
            manager := srv.manager.BroadcastMessage writeOk (editMessage a i) }
          (editMessage a i)) ∧
      srv'.upstream = srv.upstream ++
        (if relayer = true ∧ srv.masterConn.isSome = true then [editMessage a i] else []) := by
  have h32 : i < 2 ^ 32 := by
    have : N ≤ 2147483647 := hN
    omega
  have hcells : (if a = 0 then UpdateCheckbox i false srv.checkboxes
      else if a = 1 then UpdateCheckbox i true srv.checkboxes else srv.checkboxes)
      = UpdateCheckbox i (decide (a = 1)) srv.checkboxes := by
    rcases ha with rfl | rfl <;> simp
  have hrun := handleMessage_editMessage relayer writeOk srv a i hi h32
  rw [hcells] at hrun
  refine ⟨_, hrun, ?_, ?_, ?_, ?_, ?_, ?_⟩
  · cases relayer
    · simp [UpdateCheckbox_of_lt _ _ _ hi]
    · simp only [if_true, relayToMaster]
      cases srv.masterConn with
      | none => simp [UpdateCheckbox_of_lt _ _ _ hi]
      | some c => by_cases hw : writeOk c = true <;> simp [UpdateCheckbox_of_lt _ _ _ hi, hw]
  · intro j hj
    have hne : j ≠ ⟨i, hi⟩ := by
      intro h; exact hj (congrArg Fin.val h)
    cases relayer
    · simp [UpdateCheckbox_of_lt _ _ _ hi, Function.update_noteq hne]
    · simp only [if_true, relayToMaster]
      cases srv.masterConn with
      | none => simp [UpdateCheckbox_of_lt _ _ _ hi, Function.update_noteq hne]
      | some c =>
        by_cases hw : writeOk c = true <;>
          simp [UpdateCheckbox_of_lt _ _ _ hi, hw, Function.update_noteq hne]
  · cases relayer
    · simp
    · simp only [if_true, relayToMaster]
      cases srv.masterConn with
      | none => simp
      | some c => by_cases hw : writeOk c = true <;> simp [hw]
  · have hs := broadcast_sent writeOk (editMessage a i) srv.manager.Connections srv.manager
    cases relayer
    · simpa [WebSocketManager.BroadcastMessage] using hs
    · simp only [if_true, relayToMaster]
      cases srv.masterConn with
      | none => simpa [WebSocketManager.BroadcastMessage] using hs
      | some c =>
        by_cases hw : writeOk c = true <;> simpa [WebSocketManager.BroadcastMessage, hw] using hs
  · intro hr
    subst hr
    simp
  · cases relayer
    · simp
    · simp only [if_true, relayToMaster]
      cases srv.masterConn with
      | none => simp
      | some c => by_cases hw : writeOk c = true <;> simp [hw]

/-- C3 at the input of the end-to-end scenario of the specification: eight cells, all false,
two registered connections, master mode, message `[1,0,0,0,3]`. -/
theorem well_formed_edit_witness :
    (8 ≤ maxCheckboxes) ∧ ((1 : Byte) = 0 ∨ (1 : Byte) = 1) ∧
    ∃ srv', handleMessage false (fun _ => true)
        (⟨fun _ => false, ⟨[10, 11], [], []⟩, none, []⟩ : Server 8) (editMessage 1 3) = some srv' ∧
      srv'.checkboxes ⟨3, by decide⟩ = decide ((1 : Byte) = 1) ∧
      (∀ j : Fin 8, j.val ≠ 3 → srv'.checkboxes j = false) ∧
      srv'.manager.sent = [] ++ [(10, editMessage 1 3), (11, editMessage 1 3)] ∧
      srv'.upstream = [] := by
  obtain ⟨srv', h1, h2, h3, _, h5, _, h7⟩ :=
    well_formed_edit 8 false (fun _ => true)
      (⟨fun _ => false, ⟨[10, 11], [], []⟩, none, []⟩ : Server 8) 1 3
      (by decide) (Or.inr rfl) (by decide)
  exact ⟨by decide, Or.inr rfl, srv', h1, h2, h3, h5, by simpa using h7⟩

/-- C5: for every server state, when the handler of `handleWebSocket` processes
a message that is shorter than five bytes, or whose action byte is neither 0
nor 1, or whose index (bytes 1 to 4, big-endian) is `≥ N`, the step does not
fail and every cell has the value it had before; and `UpdateCheckbox(i, v)` with
`i ≥ N` changes no cell. -/
theorem rejected_message_keeps_cells (N : Nat) (relayer : Bool) (writeOk : Conn → Bool)
    (srv : Server N) (message : List Byte) (i : Nat) (v : Bool)
    (hrej : message.length < 5 ∨
      (∃ a, message[0]? = some a ∧ a ≠ 0 ∧ a ≠ 1) ∨
      (∃ a b0 b1 b2 b3 rest, message = a :: b0 :: b1 :: b2 :: b3 :: rest ∧
        N ≤ b0.val * 2 ^ 24 + b1.val * 2 ^ 16 + b2.val * 2 ^ 8 + b3.val))
    (hi : N ≤ i) :
    (∃ srv', handleMessage relayer writeOk srv message = some srv' ∧
      srv'.checkboxes = srv.checkboxes) ∧
    UpdateCheckbox i v srv.checkboxes = srv.checkboxes := by
  refine ⟨?_, UpdateCheckbox_of_ge _ _ _ hi⟩
  by_cases hlen : message.length < 5
  · exact ⟨srv, by simp [handleMessage, hlen], rfl⟩
  · obtain ⟨a, b0, b1, b2, b3, rest, rfl⟩ :
        ∃ a b0 b1 b2 b3 rest, message = a :: b0 :: b1 :: b2 :: b3 :: rest := by
      match message, hlen with
      | a :: b0 :: b1 :: b2 :: b3 :: rest, _ => exact ⟨a, b0, b1, b2, b3, rest, rfl⟩
      | [], h | [_], h | [_, _], h | [_, _, _], h | [_, _, _, _], h => simp at h
    by_cases hidx : b0.val * 2 ^ 24 + b1.val * 2 ^ 16 + b2.val * 2 ^ 8 + b3.val < N
    · have hact : a ≠ 0 ∧ a ≠ 1 := by
        rcases hrej with h | ⟨a', h, h0, h1⟩ | ⟨a', c0, c1, c2, c3, r, heq, hge⟩
        · exact absurd h hlen
        · simp only [List.getElem?_cons_zero, Option.some.injEq] at h
          subst h; exact ⟨h0, h1⟩
        · simp only [List.cons.injEq] at heq
          obtain ⟨_, rfl, rfl, rfl, rfl, _⟩ := heq
          omega
      rw [handleMessage_in_range relayer writeOk srv a b0 b1 b2 b3 rest hidx]
      refine ⟨_, rfl, ?_⟩
      cases relayer
      · simp [hact.1, hact.2]
      · simp only [if_true, relayToMaster]
        cases srv.masterConn with
        | none => simp [hact.1, hact.2]
        | some c => by_cases hw : writeOk c = true <;> simp [hw, hact.1, hact.2]
    · refine ⟨srv, ?_, rfl⟩
      have hmod : (b0.val * 2 ^ 24 + b1.val * 2 ^ 16 + b2.val * 2 ^ 8 + b3.val) % 2 ^ 32
          = b0.val * 2 ^ 24 + b1.val * 2 ^ 16 + b2.val * 2 ^ 8 + b3.val := by
        have h0 := b0.isLt; have h1 := b1.isLt; have h2 := b2.isLt; have h3 := b3.isLt
        omega
      have hsl : (slice (a :: b0 :: b1 :: b2 :: b3 :: rest) 1 5).bind Uint32
          = some (b0.val * 2 ^ 24 + b1.val * 2 ^ 16 + b2.val * 2 ^ 8 + b3.val) := by
        simp only [slice, List.length_cons]
        rw [if_pos (by omega)]
        simp only [List.drop_succ_cons, List.drop_zero, Option.some_bind, Uint32, List.take, hmod]
      unfold handleMessage
      rw [if_neg (by simp), hsl]
      simp only [List.getElem?_cons_zero, ge_iff_le]
      rw [if_pos (by omega)]

/-- C5 at a concrete input: eight cells with cell 3 set, the message
`[1,0,0,3,240]` (set index 1008 = N + 1000), and `UpdateCheckbox(8, true)`. -/
theorem rejected_message_keeps_cells_witness :
    (∃ srv', handleMessage true (fun _ => true)
        (⟨fun j => decide (j.val = 3), ⟨[10, 11], [], []⟩, some 7, []⟩ : Server 8)
        [1, 0, 0, 3, 240] = some srv' ∧
      srv'.checkboxes = fun j => decide (j.val = 3)) ∧
    UpdateCheckbox 8 true (fun j : Fin 8 => decide (j.val = 3)) = fun j => decide (j.val = 3) :=
  rejected_message_keeps_cells 8 true (fun _ => true)
    (⟨fun j => decide (j.val = 3), ⟨[10, 11], [], []⟩, some 7, []⟩ : Server 8)
    [1, 0, 0, 3, 240] 8 true
    (Or.inr (Or.inr ⟨1, 0, 0, 3, 240, [], rfl, by decide⟩)) (by decide)

/-- C4, the code at the failing input: the shipped server (`N = 1000000`, all
cells false) with connections 10 and 11 registered receives `[2,0,0,0,0]`
(action byte 2, index 0). The handler logs "Invalid action" and goes on to
`BroadcastMessage`: both connections are sent the rejected message, and in
relayer mode it is written upstream too. No cell changes. -/
theorem invalid_action_is_broadcast :
    (handleMessage false (fun _ => true)
        (⟨fun _ => false, ⟨[10, 11], [], []⟩, none, []⟩ : Server NumCheckboxes)
        [2, 0, 0, 0, 0]).map (fun s => s.manager.sent)
      = some [(10, [2, 0, 0, 0, 0]), (11, [2, 0, 0, 0, 0])] ∧
    (handleMessage true (fun _ => true)
        (⟨fun _ => false, ⟨[10, 11], [], []⟩, some 7, []⟩ : Server NumCheckboxes)
        [2, 0, 0, 0, 0]).map (fun s => (s.manager.sent, s.upstream))
      = some ([(10, [2, 0, 0, 0, 0]), (11, [2, 0, 0, 0, 0])], [[2, 0, 0, 0, 0]]) ∧
    (handleMessage false (fun _ => true)
        (⟨fun _ => false, ⟨[10, 11], [], []⟩, none, []⟩ : Server NumCheckboxes)
        [2, 0, 0, 0, 0]).map (fun s => s.checkboxes)
      = some (fun _ => false) := by
  refine ⟨?_, ?_, ?_⟩
  · rw [handleMessage_in_range false _ _ 2 0 0 0 0 [] (by decide)]
    rfl
  · rw [handleMessage_in_range true _ _ 2 0 0 0 0 [] (by decide)]
    rfl
  · rw [handleMessage_in_range false _ _ 2 0 0 0 0 [] (by decide)]
    rfl

/-! ## The replication loop (C10) -/

theorem relayToMaster_checkboxes {N : Nat} (writeOk : Conn → Bool) (srv : Server N)
    (message : List Byte) : (relayToMaster writeOk srv message).checkboxes = srv.checkboxes := by
  unfold relayToMaster
  cases srv.masterConn with
  | none => rfl
  | some c => by_cases hw : writeOk c = true <;> simp [hw]

theorem relayToMaster_manager {N : Nat} (writeOk : Conn → Bool) (srv : Server N)
    (message : List Byte) : (relayToMaster writeOk srv message).manager = srv.manager := by
  unfold relayToMaster
  cases srv.masterConn with
  | none => rfl
  | some c => by_cases hw : writeOk c = true <;> simp [hw]

/-- The replication loop on a well-formed five-byte edit whose index is in
range. -/
theorem masterMessage_editMessage {N : Nat} (writeOk : Conn → Bool)
    (srv : Server N) (a : Byte) (i : Nat) (hi : i < N) (h32 : i < 2 ^ 32) :
    masterMessage writeOk srv (editMessage a i) =
      some
        { checkboxes :=
            if a = 0 then UpdateCheckbox i false srv.checkboxes
            else if a = 1 then UpdateCheckbox i true srv.checkboxes
            else srv.checkboxes
          manager := srv.manager.BroadcastMessage writeOk (editMessage a i)
          masterConn := srv.masterConn
          upstream := srv.upstream } := by
  unfold masterMessage
  rw [editMessage_index a i h32]
  simp only [editMessage_length, ge_iff_le, le_refl, if_true]
  have h0 : (editMessage a i)[0]? = some a := rfl
  rw [h0]
  simp only [if_pos hi]
  obtain ⟨av, hav⟩ := a
  match av, hav with
  | 0, _ => simp
  | 1, _ => simp
  | n + 2, h =>
    have h0 : (⟨n + 2, h⟩ : Byte) ≠ 0 := by
      intro hc; have := congrArg Fin.val hc; simp at this
    have h1 : (⟨n + 2, h⟩ : Byte) ≠ 1 := by
      intro hc; have := congrArg Fin.val hc; simp at this
    simp [h0, h1]

/-- C10: for every relay state, every action `a ∈ {0, 1}` and every index
`i < N`, when the replication loop of `connectToMaster` receives the five-byte
message `[a, i as big-endian u32]` it does not fail, cell `i` of the relay
becomes `(a = 1)`, every other cell is unchanged, and `BroadcastMessage` is run
on the same bytes, so every local connection is sent exactly these bytes; the
resulting server is the one the per-connection handler gives in master mode,
and has the cells and the hub the handler gives in relayer mode. -/
theorem master_edit_relayed (N : Nat) (writeOk : Conn → Bool) (srv : Server N)
    (a : Byte) (i : Nat) (hN : N ≤ maxCheckboxes) (ha : a = 0 ∨ a = 1) (hi : i < N) :
    ∃ srv', masterMessage writeOk srv (editMessage a i) = some srv' ∧
      srv'.checkboxes ⟨i, hi⟩ = decide (a = 1) ∧
      (∀ j : Fin N, j.val ≠ i → srv'.checkboxes j = srv.checkboxes j) ∧
      srv'.manager = srv.manager.BroadcastMessage writeOk (editMessage a i) ∧
      srv'.manager.sent
        = srv.manager.sent ++ srv.manager.Connections.map (fun c => (c, editMessage a i)) ∧
      handleMessage false writeOk srv (editMessage a i) = some srv' ∧
      (∃ srv2, handleMessage true writeOk srv (editMessage a i) = some srv2 ∧
        srv2.checkboxes = srv'.checkboxes ∧ srv2.manager = srv'.manager) := by
  have h32 : i < 2 ^ 32 := by
    have : N ≤ 2147483647 := hN
    omega
  have hcells : (if a = 0 then UpdateCheckbox i false srv.checkboxes
      else if a = 1 then UpdateCheckbox i true srv.checkboxes else srv.checkboxes)
      = Function.update srv.checkboxes ⟨i, hi⟩ (decide (a = 1)) := by
    rcases ha with rfl | rfl <;> simp [UpdateCheckbox_of_lt _ _ _ hi]
  refine ⟨_, masterMessage_editMessage writeOk srv a i hi h32, ?_, ?_, rfl, ?_, ?_, ?_⟩
  · simp only [hcells, Function.update_same]
  · intro j hj
    have hne : j ≠ ⟨i, hi⟩ := by
      intro h; exact hj (congrArg Fin.val h)
    simp only [hcells, Function.update_noteq hne]
  · exact broadcast_sent writeOk (editMessage a i) srv.manager.Connections srv.manager
  · rw [handleMessage_editMessage false writeOk srv a i hi h32]
    simp
  · refine ⟨_, handleMessage_editMessage true writeOk srv a i hi h32, ?_, ?_⟩
    · simp only [if_true, relayToMaster_checkboxes]
    · simp only [if_true, relayToMaster_manager]

/-- C10 at the input of the relay scenario of the specification: the master sends
`[1,0,0,0,5]` to a relay with eight cells and two local connections. -/
theorem master_edit_relayed_witness :
    (8 ≤ maxCheckboxes) ∧ ((1 : Byte) = 0 ∨ (1 : Byte) = 1) ∧
    ∃ srv', masterMessage (fun _ => true)
        (⟨fun _ => false, ⟨[10, 11], [], []⟩, some 7, []⟩ : Server 8) [1, 0, 0, 0, 5] = some srv' ∧
      srv'.checkboxes ⟨5, by decide⟩ = true ∧
      (∀ j : Fin 8, j.val ≠ 5 → srv'.checkboxes j = false) ∧
      srv'.manager.sent = [(10, [1, 0, 0, 0, 5]), (11, [1, 0, 0, 0, 5])] := by
  obtain ⟨srv', h1, h2, h3, _, h5, _, _⟩ :=
    master_edit_relayed 8 (fun _ => true)
      (⟨fun _ => false, ⟨[10, 11], [], []⟩, some 7, []⟩ : Server 8) 1 5
      (by decide) (Or.inr rfl) (by decide)
  exact ⟨by decide, Or.inr rfl, srv', h1, by simpa using h2, h3, h5⟩

/-! ## Persistence (C9) -/

/-- The copy loop of `SaveStateToFile` never panics and yields the cells in
order. -/
theorem SaveStateToFile_spec {N : Nat} (cb : Cells N) :
    ∃ saved, SaveStateToFile cb = some saved ∧ saved.length = N ∧
      ∀ j : Fin N, saved[j.val]? = some (cb j) := by
  have h := forLoop_invariant
    (fun i state =>
      if i < state.length then
        if hc : i < N then some (state.set i (cb ⟨i, hc⟩)) else none
      else none)
    (fun k (state : List Bool) => state.length = N ∧
      ∀ j : Fin N, state[j.val]? = some (if j.val < k then cb j else false))
    N (List.replicate N false)
    ⟨by simp, by intro j; simp [List.getElem?_replicate, j.isLt]⟩
    (by
      intro i t hi ⟨hlen, hget⟩
      refine ⟨t.set i (cb ⟨i, hi⟩), by simp [hlen, hi], by simp [hlen], ?_⟩
      intro j
      by_cases hji : j.val = i
      · have hj : j = ⟨i, hi⟩ := Fin.ext hji
        subst hj
        simp [List.getElem?_set, hlen, hi]
      · rw [List.getElem?_set_ne (fun h => hji h.symm), hget j]
        have h1 : (j.val < i + 1) = (j.val < i) := by
          apply propext; constructor <;> intro h <;> omega
        simp only [h1])
  obtain ⟨saved, hrun, hlen, hget⟩ := h
  refine ⟨saved, hrun, hlen, ?_⟩
  intro j
  rw [hget j]
  simp [j.isLt]

/-- The restore loop of `LoadStateFromFile` never panics and stores exactly the
entries the decoded slice has. -/
theorem loadLoop_spec {N : Nat} (state : List Bool) (old : Cells N) :
    ∃ cb', loadLoop state old = some cb' ∧ ∀ j : Fin N, cb' j = (state[j.val]?).getD (old j) := by
  have h := forLoop_invariant
    (fun i (cb : Cells N) =>
      match state[i]? with
      | none => none
      | some v => if hc : i < N then some (Function.update cb ⟨i, hc⟩ v) else none)
    (fun k (cb : Cells N) => ∀ j : Fin N, cb j = if j.val < k then (state[j.val]?).getD (old j)
      else old j)
    (min N state.length) old
    (by intro j; simp)
    (by
      intro i t hi hget
      have hiN : i < N := by omega
      have hiL : i < state.length := by omega
      refine ⟨Function.update t ⟨i, hiN⟩ state[i], by simp [List.getElem?_eq_getElem hiL, hiN], ?_⟩
      intro j
      by_cases hji : j.val = i
      · have hj : j = ⟨i, hiN⟩ := Fin.ext hji
        subst hj
        simp [List.getElem?_eq_getElem hiL]
      · have hne : j ≠ ⟨i, hiN⟩ := fun h => hji (congrArg Fin.val h)
        rw [Function.update_noteq hne, hget j]
        have h1 : (j.val < i + 1) = (j.val < i) := by
          apply propext; constructor <;> intro h <;> omega
        simp only [h1])
  obtain ⟨cb', hrun, hget⟩ := h
  refine ⟨cb', hrun, ?_⟩
  intro j
  rw [hget j]
  by_cases hj : j.val < state.length
  · have : j.val < min N state.length := by have := j.isLt; omega
    simp [this]
  · have : ¬ j.val < min N state.length := by omega
    simp [this, List.getElem?_eq_none (Nat.not_lt.mp hj)]

/-- C9: for every cell state `s`, the slice that `SaveStateToFile` builds from
`s` has length `N` and equals `s` cell by cell, and `LoadStateFromFile` given
that slice back (the file encoding taken to return what it was given) on an
all-false store yields `s`; more generally, loading a slice `state` of any
length `L` into a store `old` does not fail, gives the cells `j < min L N` the
value `state[j]` and leaves the others as in `old`. -/
theorem persistence_round_trip (N : Nat) (s old : Cells N) (state : List Bool) :
    (∃ saved, SaveStateToFile s = some saved ∧ saved.length = N ∧
      (∀ j : Fin N, saved[j.val]? = some (s j)) ∧
      LoadStateFromFile (some saved) (fun _ : Fin N => false) = some s) ∧
    (∃ cb', LoadStateFromFile (some state) old = some cb' ∧
      ∀ j : Fin N, cb' j = (state[j.val]?).getD (old j)) := by
  refine ⟨?_, loadLoop_spec state old⟩
  obtain ⟨saved, hrun, hlen, hget⟩ := SaveStateToFile_spec s
  refine ⟨saved, hrun, hlen, hget, ?_⟩
  obtain ⟨cb', hload, hcb⟩ := loadLoop_spec saved (fun _ : Fin N => false)
  have : cb' = s := by
    funext j
    rw [hcb j, hget j]
    rfl
  rw [← this]
  exact hload

/-- C9 at the input of the persistence scenario of the specification: sixteen cells
with exactly cells 1, 4 and 9 set are saved and reloaded into an all-false
store. -/
theorem persistence_round_trip_witness :
    ∃ saved, SaveStateToFile (fun j : Fin 16 => decide (j.val = 1 ∨ j.val = 4 ∨ j.val = 9))
        = some saved ∧
      LoadStateFromFile (some saved) (fun _ : Fin 16 => false)
        = some (fun j : Fin 16 => decide (j.val = 1 ∨ j.val = 4 ∨ j.val = 9)) := by
  obtain ⟨saved, h1, _, _, h4⟩ :=
    (persistence_round_trip 16 (fun j => decide (j.val = 1 ∨ j.val = 4 ∨ j.val = 9))
      (fun _ => false) []).1
  exact ⟨saved, h1, h4⟩

/-! ## Auxiliary lemmas: bits of a byte -/

theorem byte_testBit_of_ge (x : Byte) (b : Nat) (hb : 8 ≤ b) : x.val.testBit b = false := by
  apply Nat.testBit_lt_two_pow
  have h1 : x.val < 2 ^ 8 := x.isLt
  have h2 : 2 ^ 8 ≤ 2 ^ b := Nat.pow_le_pow_right (by decide) hb
  omega

theorem testBit_mod_256 (n b : Nat) :
    (n % 256).testBit b = (decide (b < 8) && n.testBit b) :=
  Nat.testBit_mod_two_pow n 8 b

/-- The bits of `1 << k` at type `byte`: bit `k` when `k < 8`, nothing
otherwise. -/
theorem byteShl1_testBit (k b : Nat) :
    (byteShl1 k).val.testBit b = (decide (b < 8) && decide (k = b)) := by
  simp only [byteShl1, Nat.one_shiftLeft]
  rw [testBit_mod_256, Nat.testBit_two_pow]

theorem byteShl1_of_ge (k : Nat) (hk : 8 ≤ k) : byteShl1 k = 0 := by
  apply Fin.ext
  apply Nat.eq_of_testBit_eq
  intro b
  rw [byteShl1_testBit]
  by_cases hb : b < 8
  · have : k ≠ b := by omega
    simp [this]
  · simp [hb]

theorem byteOr_testBit (x y : Byte) (b : Nat) :
    (byteOr x y).val.testBit b = (x.val.testBit b || y.val.testBit b) := by
  simp only [byteOr]
  rw [testBit_mod_256, Nat.testBit_or]
  by_cases hb : b < 8
  · simp [hb]
  · simp [hb, byte_testBit_of_ge x b (by omega), byte_testBit_of_ge y b (by omega)]

theorem byteAnd_testBit (x y : Byte) (b : Nat) :
    (byteAnd x y).val.testBit b = (x.val.testBit b && y.val.testBit b) := by
  simp only [byteAnd]
  rw [testBit_mod_256, Nat.testBit_and]
  by_cases hb : b < 8
  · simp [hb]
  · simp [hb, byte_testBit_of_ge x b (by omega)]

/-- The test `x & (1 << k) != 0` at type `byte` succeeds exactly when `k < 8`
and bit `k` of `x` is set. -/
theorem byteAnd_byteShl1_ne_zero (x : Byte) (k : Nat) :
    byteAnd x (byteShl1 k) ≠ 0 ↔ (k < 8 ∧ x.val.testBit k = true) := by
  constructor
  · intro hne
    have hval : (byteAnd x (byteShl1 k)).val ≠ 0 := by
      intro h; exact hne (Fin.ext h)
    obtain ⟨b, hb⟩ := Nat.ne_zero_implies_bit_true hval
    rw [byteAnd_testBit, byteShl1_testBit] at hb
    simp only [Bool.and_eq_true, decide_eq_true_eq] at hb
    obtain ⟨hx, hb8, hkb⟩ := hb
    subst hkb
    exact ⟨hb8, hx⟩
  · rintro ⟨hk, hx⟩ h0
    have : (byteAnd x (byteShl1 k)).val.testBit k = true := by
      rw [byteAnd_testBit, byteShl1_testBit]
      simp [hk, hx]
    rw [h0] at this
    simp at this

/-! ## The snapshot codec as the code computes it -/

/-- What `sendFullState` builds, for every cell state: the loop never panics,
the slice has `(N+31)/32*4` bytes, and only the first byte of each four-byte
group is ever written: bit `b` (`b < 8`) of byte `j = 4g` is the cell
`32g + 31 - b`, that is, cells 24 to 31 of a group land in bits 7 to 0 of its
first byte (`1 << (31 - i%32)` is an 8-bit shift and is 0 for cells 0 to 23 of
the group). Every other bit of the slice is 0. -/
theorem sendFullState_spec {N : Nat} (cb : Cells N) :
    ∃ data, sendFullState cb = some data ∧ data.length = (N + 31) / 32 * 4 ∧
      ∀ j, j < (N + 31) / 32 * 4 → ∃ x, data[j]? = some x ∧ ∀ b,
        (x.val.testBit b = true ↔
          (j % 4 = 0 ∧ b < 8 ∧ 8 * j + 31 - b < N ∧
            GetCheckboxState cb ((8 * j + 31 - b) % 2 ^ 32) = true)) := by
  apply forLoop_invariant (sendFullStateRound cb)
    (fun k (data : List Byte) => data.length = (N + 31) / 32 * 4 ∧
      ∀ j, j < (N + 31) / 32 * 4 → ∃ x, data[j]? = some x ∧ ∀ b,
        (x.val.testBit b = true ↔
          (j % 4 = 0 ∧ b < 8 ∧ 8 * j + 31 - b < k ∧
            GetCheckboxState cb ((8 * j + 31 - b) % 2 ^ 32) = true)))
  · refine ⟨by simp, ?_⟩
    intro j hj
    refine ⟨0, by simp [List.getElem?_replicate, hj], ?_⟩
    intro b
    simp
  · intro i t hi ⟨hlen, hbits⟩
    unfold sendFullStateRound
    by_cases hcell : GetCheckboxState cb (i % 2 ^ 32) = true
    · rw [if_pos hcell]
      have hidx : i / 32 * 4 < (N + 31) / 32 * 4 := by omega
      obtain ⟨x0, hx0, hx0bits⟩ := hbits (i / 32 * 4) hidx
      rw [hx0]
      refine ⟨_, rfl, by simp [hlen], ?_⟩
      intro j hj
      by_cases hji : j = i / 32 * 4
      · subst hji
        refine ⟨byteOr x0 (byteShl1 (31 - i % 32)), ?_, ?_⟩
        · rw [List.getElem?_set_self (by omega)]
        · intro b
          rw [byteOr_testBit, byteShl1_testBit]
          simp only [Bool.or_eq_true, Bool.and_eq_true, decide_eq_true_eq, hx0bits b]
          constructor
          · rintro (⟨h1, h2, h3, h4⟩ | ⟨h1, h2⟩)
            · exact ⟨h1, h2, by omega, h4⟩
            · have he : 8 * (i / 32 * 4) + 31 - b = i := by omega
              exact ⟨by omega, h1, by omega, by rw [he]; exact hcell⟩
          · rintro ⟨h1, h2, h3, h4⟩
            by_cases he : 8 * (i / 32 * 4) + 31 - b = i
            · right; exact ⟨h2, by omega⟩
            · left; exact ⟨h1, h2, by omega, h4⟩
      · obtain ⟨x, hx, hxbits⟩ := hbits j hj
        refine ⟨x, ?_, ?_⟩
        · rw [List.getElem?_set_ne (fun h => hji h.symm)]; exact hx
        · intro b
          rw [hxbits b]
          constructor
          · rintro ⟨h1, h2, h3, h4⟩
            exact ⟨h1, h2, by omega, h4⟩
          · rintro ⟨h1, h2, h3, h4⟩
            exact ⟨h1, h2, by omega, h4⟩
    · rw [if_neg hcell]
      refine ⟨t, rfl, hlen, ?_⟩
      intro j hj
      obtain ⟨x, hx, hxbits⟩ := hbits j hj
      refine ⟨x, hx, ?_⟩
      intro b
      rw [hxbits b]
      constructor
      · rintro ⟨h1, h2, h3, h4⟩
        exact ⟨h1, h2, by omega, h4⟩
      · rintro ⟨h1, h2, h3, h4⟩
        refine ⟨h1, h2, ?_, h4⟩
        by_cases he : 8 * j + 31 - b = i
        · rw [he] at h4; exact absurd h4 hcell
        · omega

/-- What `updateLocalState` stores, when the slice is long enough for every
index the loop reads and `uint32(i)` is `i`: cell `j` is set exactly when
`j % 32 ≥ 24` and bit `31 - j % 32` of byte `(j/32)*4` is set; the cells with
`j % 32 < 24` are cleared whatever the slice holds. -/
theorem updateLocalState_spec {N : Nat} (hN : N ≤ 2 ^ 32) (data : List Byte) (old : Cells N)
    (hlen : ∀ i, i < N → i / 32 * 4 < data.length) :
    ∃ cb', updateLocalState data old = some cb' ∧
      ∀ j : Fin N, ∃ x, data[j.val / 32 * 4]? = some x ∧
        (cb' j = true ↔ (24 ≤ j.val % 32 ∧ x.val.testBit (31 - j.val % 32) = true)) := by
  have h := forLoop_invariant (updateLocalStateRound data)
    (fun k (cb : Cells N) => ∀ j : Fin N, j.val < k → ∃ x, data[j.val / 32 * 4]? = some x ∧
        (cb j = true ↔ (24 ≤ j.val % 32 ∧ x.val.testBit (31 - j.val % 32) = true)))
    N old (by intro j hj; omega)
    (by
      intro i t hi hinv
      obtain ⟨x, hget⟩ : ∃ x, data[i / 32 * 4]? = some x :=
        ⟨_, List.getElem?_eq_getElem (hlen i hi)⟩
      have hmod : i % 2 ^ 32 = i := Nat.mod_eq_of_lt (by omega)
      unfold updateLocalStateRound
      rw [hget]
      simp only [hmod, UpdateCheckbox_of_lt _ _ _ hi]
      by_cases hbit : byteAnd x (byteShl1 (31 - i % 32)) ≠ 0
      · rw [if_pos hbit]
        refine ⟨_, rfl, ?_⟩
        intro j hj
        by_cases hji : j.val = i
        · have hj' : j = ⟨i, hi⟩ := Fin.ext hji
          subst hj'
          refine ⟨_, hget, ?_⟩
          have := (byteAnd_byteShl1_ne_zero _ _).mp hbit
          simp only [Function.update_same, true_iff]
          exact ⟨by omega, this.2⟩
        · have hne : j ≠ ⟨i, hi⟩ := fun h => hji (congrArg Fin.val h)
          rw [Function.update_noteq hne]
          exact hinv j (by omega)
      · rw [if_neg hbit]
        refine ⟨_, rfl, ?_⟩
        intro j hj
        by_cases hji : j.val = i
        · have hj' : j = ⟨i, hi⟩ := Fin.ext hji
          subst hj'
          refine ⟨_, hget, ?_⟩
          simp only [Function.update_same, Bool.false_eq_true, false_iff]
          intro ⟨h24, hx⟩
          exact hbit ((byteAnd_byteShl1_ne_zero _ _).mpr ⟨by omega, hx⟩)
        · have hne : j ≠ ⟨i, hi⟩ := fun h => hji (congrArg Fin.val h)
          rw [Function.update_noteq hne]
          exact hinv j (by omega))
  obtain ⟨cb', hrun, hinv⟩ := h
  exact ⟨cb', hrun, fun j => hinv j j.isLt⟩

/-- Encoding with `sendFullState` and decoding with `updateLocalState`, as the
code computes them: nothing panics, and the decoded store keeps the cells with
`j % 32 ≥ 24` and has `false` in every other cell, whatever it held before. -/
theorem snapshot_round_trip_spec {N : Nat} (hN : N ≤ 2 ^ 32) (s old : Cells N) :
    ∃ data cb', sendFullState s = some data ∧ updateLocalState data old = some cb' ∧
      ∀ j : Fin N, cb' j = (decide (24 ≤ j.val % 32) && s j) := by
  obtain ⟨data, henc, hlen, hbits⟩ := sendFullState_spec s
  obtain ⟨cb', hdec, hcells⟩ := updateLocalState_spec hN data old (by
    intro i hi; rw [hlen]; omega)
  refine ⟨data, cb', henc, hdec, ?_⟩
  intro j
  have hj := j.isLt
  obtain ⟨x, hx, hxbit⟩ := hcells j
  obtain ⟨y, hy, hybits⟩ := hbits (j.val / 32 * 4) (by omega)
  have hxy : x = y := by
    rw [hx] at hy; exact Option.some.inj hy
  subst hxy
  have hiff : cb' j = true ↔ (decide (24 ≤ j.val % 32) && s j) = true := by
    rw [hxbit, hybits]
    simp only [Bool.and_eq_true, decide_eq_true_eq]
    constructor
    · rintro ⟨h24, _, _, _, hg⟩
      have he : (8 * (j.val / 32 * 4) + 31 - (31 - j.val % 32)) % 2 ^ 32 = j.val := by omega
      rw [he, GetCheckboxState_of_lt _ _ hj] at hg
      exact ⟨h24, hg⟩
    · rintro ⟨h24, hs⟩
      have he : (8 * (j.val / 32 * 4) + 31 - (31 - j.val % 32)) % 2 ^ 32 = j.val := by omega
      refine ⟨h24, by omega, by omega, by omega, ?_⟩
      rw [he, GetCheckboxState_of_lt _ _ hj]
      exact hs
  cases hc : cb' j
  · cases hd : (decide (24 ≤ j.val % 32) && s j)
    · rfl
    · rw [hiff.mpr hd] at hc; cases hc
  · exact (hiff.mp hc).symm

/-- A cell state whose set cells all have `j % 32 < 24` is encoded by
`sendFullState` as all-zero bytes. -/
theorem sendFullState_eq_zero {N : Nat} (hN : N ≤ 2 ^ 32) (cb : Cells N)
    (hcb : ∀ j : Fin N, cb j = true → j.val % 32 < 24) :
    sendFullState cb = some (List.replicate ((N + 31) / 32 * 4) 0) := by
  obtain ⟨data, henc, hlen, hbits⟩ := sendFullState_spec cb
  rw [henc]
  congr 1
  apply List.ext_getElem?
  intro j
  by_cases hj : j < (N + 31) / 32 * 4
  · obtain ⟨x, hx, hxbits⟩ := hbits j hj
    rw [hx, List.getElem?_replicate, if_pos hj]
    congr 1
    apply Fin.ext
    apply Nat.eq_of_testBit_eq
    intro b
    have h0 : (0 : Byte).val = 0 := rfl
    rw [h0, Nat.zero_testBit]
    cases hb : x.val.testBit b
    · rfl
    · exfalso
      obtain ⟨h1, h2, h3, h4⟩ := (hxbits b).mp hb
      have hlt : 8 * j + 31 - b < N := h3
      have hmod : (8 * j + 31 - b) % 2 ^ 32 = 8 * j + 31 - b := Nat.mod_eq_of_lt (by omega)
      rw [hmod, GetCheckboxState_of_lt _ _ hlt] at h4
      have := hcb ⟨8 * j + 31 - b, hlt⟩ h4
      simp only at this
      omega
  · rw [List.getElem?_eq_none (by omega), List.getElem?_eq_none (by simp; omega)]

/-- A slice too short for the last index the loop of `updateLocalState` reads
makes the loop panic. -/
theorem updateLocalState_short {N : Nat} (data : List Byte) (cb : Cells N) (hN : 0 < N)
    (hlen : data.length ≤ (N - 1) / 32 * 4) : updateLocalState data cb = none := by
  apply forLoop_eq_none (updateLocalStateRound data) (N - 1) _ N cb (by omega)
  intro t
  unfold updateLocalStateRound
  rw [List.getElem?_eq_none hlen]

/-! ## The snapshot codec at concrete inputs (C1, C2, C6) -/

/-- C1, the code at the failing input: with only cell 3 set, `sendFullState`
builds an all-zero slice, for the test size `N = 8` (bytes `00 00 00 00`) as for
the shipped `N = 1000000` (125000 zero bytes): the first byte is `0x00`, not
`0x10`, because `1 << 28` at type `byte` is 0. With only cell 24 set the first
byte is `0x80`, the bit that the documented format gives to cell 0. The length
`(N+31)/32*4` is the documented one. -/
theorem snapshot_of_cell_3 :
    sendFullState (fun i : Fin 8 => decide (i.val = 3)) = some [0, 0, 0, 0] ∧
    sendFullState (fun i : Fin NumCheckboxes => decide (i.val = 3))
      = some (List.replicate 125000 0) ∧
    sendFullState (fun i : Fin 32 => decide (i.val = 24)) = some [0x80, 0, 0, 0] := by
  refine ⟨by decide, ?_, by decide⟩
  have h := sendFullState_eq_zero (N := NumCheckboxes) (by decide)
    (fun i => decide (i.val = 3)) (by
      intro j hj
      have : j.val = 3 := by simpa using hj
      omega)
  have hl : (NumCheckboxes + 31) / 32 * 4 = 125000 := by decide
  rw [hl] at h
  exact h

/-- C2, the code at the failing input: for the shipped `N = 1000000`, encoding
any cell state `s` with `sendFullState` and decoding the bytes with
`updateLocalState` runs without panic and gives the store that keeps the cells
with `j % 32 ≥ 24` and is `false` everywhere else; so the state with only cell 3
set comes back with cell 3 cleared (also for the test size `N = 8`). -/
theorem round_trip_loses_cells :
    (∀ s old : Cells NumCheckboxes, ∃ data cb',
      sendFullState s = some data ∧ updateLocalState data old = some cb' ∧
      ∀ j : Fin NumCheckboxes, cb' j = (decide (24 ≤ j.val % 32) && s j)) ∧
    (∃ (data : List Byte) (cb' : Cells NumCheckboxes),
      sendFullState (fun i : Fin NumCheckboxes => decide (i.val = 3)) = some data ∧
      updateLocalState data (fun _ => false) = some cb' ∧
      cb' ⟨3, by decide⟩ = false) ∧
    (∃ (data : List Byte) (cb' : Cells 8),
      sendFullState (fun i : Fin 8 => decide (i.val = 3)) = some data ∧
      updateLocalState data (fun _ => false) = some cb' ∧
      cb' ⟨3, by decide⟩ = false) := by
  refine ⟨fun s old => snapshot_round_trip_spec (by decide) s old, ?_, ?_⟩
  · obtain ⟨data, cb', h1, h2, h3⟩ :=
      snapshot_round_trip_spec (N := NumCheckboxes) (by decide)
        (fun i => decide (i.val = 3)) (fun _ => false)
    exact ⟨data, cb', h1, h2, by rw [h3]; rfl⟩
  · obtain ⟨data, cb', h1, h2, h3⟩ :=
      snapshot_round_trip_spec (N := 8) (by decide)
        (fun i => decide (i.val = 3)) (fun _ => false)
    exact ⟨data, cb', h1, h2, by rw [h3]; rfl⟩

/-- C6, the code at the failing input: for the shipped `N = 1000000`,
`updateLocalState` panics (index out of range) on the empty slice and on a
slice one group short (124996 zero bytes), whatever the store holds; the same
on the empty slice for the test size `N = 8`. -/
theorem short_snapshot_panics :
    (∀ cb : Cells NumCheckboxes, updateLocalState [] cb = none) ∧
    (∀ cb : Cells NumCheckboxes, updateLocalState (List.replicate 124996 0) cb = none) ∧
    updateLocalState [] (fun _ : Fin 8 => false) = none := by
  refine ⟨?_, ?_, ?_⟩
  · intro cb
    exact updateLocalState_short [] cb (by decide) (by simp)
  · intro cb
    have hl : (List.replicate 124996 (0 : Byte)).length ≤ (NumCheckboxes - 1) / 32 * 4 := by
      rw [List.length_replicate]; decide
    exact updateLocalState_short _ cb (by decide) hl
  · exact updateLocalState_short [] _ (by decide) (by simp)

end Checkboxes
